import Mathlib

/-!
Verification of the encoding-stage core of the `federated` model-compression
library: the `StateAggregationMode` enum, the `EncodingStageInterface` and
`AdaptiveEncodingStageInterface` capability contracts, and the aggregation
semantics required of consumers of `state_update_aggregation_modes`.

The source file (`encoding_stage.py`) declares abstract interfaces whose
behavioural obligations live in their docstrings; those obligations are
embedded here as lawfulness predicates over explicit Lean structures whose
fields mirror the abstract members one-to-one.  Numeric arrays are modelled
as shaped integer tensors, and mappings from string keys to arrays as
association lists.
-/

/-- A numeric array: a shape together with flat row-major data.  This models
the `Tensor` values that the core treats as opaque numeric arrays. -/
structure Tensor where
  shape : List Nat
  data : List Int
deriving DecidableEq, Repr

/-- A tensor is well formed when its flat data has exactly as many elements
as its shape prescribes. -/
def Tensor.wf (t : Tensor) : Prop :=
  t.data.length = t.shape.prod

instance (t : Tensor) : Decidable t.wf := by
  unfold Tensor.wf; infer_instance

/-- Element-wise combination of two tensors of identical shape. -/
def elementwise (f : Int → Int → Int) (a b : Tensor) : Tensor :=
  Tensor.mk a.shape (List.zipWith f a.data b.data)

/-- A mapping from string keys to tensors, as returned by `encode`,
`get_params`, `initial_state`, etc. -/
def TensorMap : Type := List (String × Tensor)

instance : DecidableEq TensorMap := by
  unfold TensorMap; infer_instance

/-- The key list of a tensor mapping. -/
def TensorMap.keys (m : TensorMap) : List String :=
  m.map Prod.fst

/-- Lookup of a key in a tensor mapping. -/
def TensorMap.find (m : TensorMap) (k : String) : Option Tensor :=
  match m with
  | [] => none
  | (k₂, t) :: rest => if k = k₂ then some t else TensorMap.find rest k

/-- Per-key element-wise sum of two tensor mappings with identical key
structure. -/
def TensorMap.add2 (a b : TensorMap) : TensorMap :=
  List.zipWith (fun p q => (p.1, elementwise (· + ·) p.2 q.2)) a b

/-- Per-key element-wise sum of a list of tensor mappings (the element-wise
per-key sum of several encoded representations). -/
def sumMaps : List TensorMap → TensorMap
  | [] => []
  | m :: ms => ms.foldl TensorMap.add2 m

/-- Element-wise sum of a list of tensors of identical shape.  Empty input
yields the empty tensor. -/
def sumTensorList : List Tensor → Tensor
  | [] => Tensor.mk [] []
  | t :: rest => rest.foldl (elementwise (· + ·)) t

/-- `StateAggregationMode`: the closed enumeration declaring how
`state_update_tensors` are aggregated across participants.  Members and
numeric values are exactly those of the source enum. -/
inductive StateAggregationMode where
  | SUM
  | MIN
  | MAX
  | CONCAT
deriving DecidableEq, Repr

/-- The numeric value attached to each enum member in the source
(`SUM = 1`, `MIN = 2`, `MAX = 3`, `CONCAT = 4`). -/
def StateAggregationMode.value : StateAggregationMode → Nat
  | .SUM => 1
  | .MIN => 2
  | .MAX => 3
  | .CONCAT => 4

/-- Modelled from the spec: the external aggregation layer that combines the
per-participant contributions for one state-update key according to its
declared `StateAggregationMode`.  The repository contains only the enum
declaration; the combining behaviour lives in the external aggregator the
spec describes (SUM, MIN, MAX element-wise; CONCAT along a new leading
axis).  Empty participant lists are rejected. -/
def aggregate (mode : StateAggregationMode) (ts : List Tensor) : Option Tensor :=
  match ts with
  | [] => none
  | t :: rest =>
    match mode with
    | .SUM => some (rest.foldl (elementwise (· + ·)) t)
    | .MIN => some (rest.foldl (elementwise min) t)
    | .MAX => some (rest.foldl (elementwise max) t)
    | .CONCAT => some (Tensor.mk (ts.length :: t.shape) (ts.map Tensor.data).flatten)

/-- The errors of the spec's error taxonomy that stage operations may raise. -/
inductive StageError where
  | configurationError
  | shapeTypeMismatch
  | structureMismatch
  | missingShape
deriving DecidableEq, Repr

/-- The stateless encoding-stage capability contract: one field per abstract
member of `EncodingStageInterface`.  `get_params` returns the pair
`(encode_params, decode_params)`; `decode` takes the encoded mapping, the
decode parameters and an optional shape (the Python default `shape=None` is
the `none` case) and may fail with a `StageError`. -/
structure EncodingStageInterface where
  compressible_tensors_keys : List String
  commutes_with_sum : Bool
  decode_needs_input_shape : Bool
  get_params : TensorMap × TensorMap
  encode : Tensor → TensorMap → TensorMap
  decode : TensorMap → TensorMap → Option (List Nat) → Except StageError Tensor

/-- The adaptive encoding-stage capability contract: one field per abstract
member of `AdaptiveEncodingStageInterface`.  It declares the same five
members as the stateless contract, extends `encode` to also return
`state_update_tensors`, and adds `state_update_aggregation_modes`,
`initial_state` and `update_state`. -/
structure AdaptiveEncodingStageInterface where
  compressible_tensors_keys : List String
  commutes_with_sum : Bool
  decode_needs_input_shape : Bool
  state_update_aggregation_modes : List (String × StateAggregationMode)
  initial_state : TensorMap
  update_state : TensorMap → TensorMap → Except StageError TensorMap
  get_params : TensorMap × TensorMap
  encode : Tensor → TensorMap → TensorMap × TensorMap
  decode : TensorMap → TensorMap → Option (List Nat) → Except StageError Tensor

/-- The behavioural obligations the source docstrings place on every
implementation of `EncodingStageInterface`:

* the key set of `encode`'s output is fixed per stage and contains the
  declared `compressible_tensors_keys`;
* when `commutes_with_sum` is true, summing encoded representations of
  same-shape inputs produced with identical `encode_params` and then
  decoding (with the same `decode_params`) yields the sum of the
  individually decoded tensors;
* when `decode_needs_input_shape` is true, `decode` without a shape fails
  with a missing-shape error; when it is false, decoding a matching encoded
  representation without a shape succeeds. -/
structure LawfulEncodingStage (S : EncodingStageInterface) : Prop where
  keys_fixed : ∀ x₁ x₂ p₁ p₂,
    (S.encode x₁ p₁).keys = (S.encode x₂ p₂).keys
  compressible_subset : ∀ x p,
    S.compressible_tensors_keys ⊆ (S.encode x p).keys
  commutes : S.commutes_with_sum = true →
    ∀ (p dp : TensorMap) (sh : Option (List Nat)) (s : List Nat)
      (xs ys : List Tensor), xs ≠ [] → (∀ x ∈ xs, x.shape = s) →
      List.Forall₂ (fun x y => S.decode (S.encode x p) dp sh = Except.ok y) xs ys →
      S.decode (sumMaps (xs.map (fun x => S.encode x p))) dp sh =
        Except.ok (sumTensorList ys)
  shape_needed : S.decode_needs_input_shape = true →
    ∀ et dp, S.decode et dp none = Except.error StageError.missingShape
  shape_not_needed : S.decode_needs_input_shape = false →
    ∀ x, ∃ t, S.decode (S.encode x S.get_params.1) S.get_params.2 none = Except.ok t

/-- The behavioural obligations the source docstrings place on every
implementation of `AdaptiveEncodingStageInterface`.  They repeat the
stateless obligations (with `commutes_with_sum` constraining only the
`encoded_tensors` component of `encode`'s output) and add:

* the keys of the `state_update_tensors` returned by `encode` are exactly
  the keys of `state_update_aggregation_modes`;
* the state schema is fixed: whenever `update_state` succeeds, both the
  state it accepted and the state it returns have exactly the key set of
  `initial_state`. -/
structure LawfulAdaptiveStage (S : AdaptiveEncodingStageInterface) : Prop where
  keys_fixed : ∀ x₁ x₂ p₁ p₂,
    (S.encode x₁ p₁).1.keys = (S.encode x₂ p₂).1.keys
  compressible_subset : ∀ x p,
    S.compressible_tensors_keys ⊆ (S.encode x p).1.keys
  state_update_keys : ∀ x p,
    (S.encode x p).2.keys = S.state_update_aggregation_modes.map Prod.fst
  state_schema : ∀ st su st₂, S.update_state st su = Except.ok st₂ →
    st.keys = S.initial_state.keys ∧ st₂.keys = S.initial_state.keys
  commutes : S.commutes_with_sum = true →
    ∀ (p dp : TensorMap) (sh : Option (List Nat)) (s : List Nat)
      (xs ys : List Tensor), xs ≠ [] → (∀ x ∈ xs, x.shape = s) →
      List.Forall₂ (fun x y => S.decode (S.encode x p).1 dp sh = Except.ok y) xs ys →
      S.decode (sumMaps (xs.map (fun x => (S.encode x p).1))) dp sh =
        Except.ok (sumTensorList ys)
  shape_needed : S.decode_needs_input_shape = true →
    ∀ et dp, S.decode et dp none = Except.error StageError.missingShape
  shape_not_needed : S.decode_needs_input_shape = false →
    ∀ x, ∃ t, S.decode (S.encode x S.get_params.1).1 S.get_params.2 none = Except.ok t

/-- The kind of a class member in the source module: declared abstract
property, declared abstract method, or a concrete method with a body.  The
source interfaces contain only the first two kinds. -/
inductive MemberKind where
  | abstractProperty
  | abstractMethod
  | concreteMethod
deriving DecidableEq, Repr

/-- A formal parameter of a Python method (excluding `self`): its name and
its default value, if the signature declares one. -/
structure PyParam where
  pname : String
  defaultVal : Option String
deriving DecidableEq, Repr

/-- A member of one of the two interface classes: its name, kind, parameter
list and the number of components of its documented return value (1 for a
single object, 2 for a pair). -/
structure PyMember where
  mname : String
  kind : MemberKind
  params : List PyParam
  retComponents : Nat
deriving DecidableEq, Repr

/-- The members of `EncodingStageInterface`, transcribed from the class
body: three abstract properties and the abstract methods `get_params`
(returning a pair), `encode` and `decode`. -/
def statelessMembers : List PyMember :=
  [PyMember.mk "compressible_tensors_keys" MemberKind.abstractProperty [] 1,
   PyMember.mk "commutes_with_sum" MemberKind.abstractProperty [] 1,
   PyMember.mk "decode_needs_input_shape" MemberKind.abstractProperty [] 1,
   PyMember.mk "get_params" MemberKind.abstractMethod
     [PyParam.mk "name" (some "None")] 2,
   PyMember.mk "encode" MemberKind.abstractMethod
     [PyParam.mk "x" none, PyParam.mk "encode_params" none,
      PyParam.mk "name" (some "None")] 1,
   PyMember.mk "decode" MemberKind.abstractMethod
     [PyParam.mk "encoded_tensors" none, PyParam.mk "decode_params" none,
      PyParam.mk "shape" (some "None"), PyParam.mk "name" (some "None")] 1]

/-- The members of `AdaptiveEncodingStageInterface`, transcribed from the
class body: four abstract properties and the abstract methods
`initial_state`, `update_state`, `get_params`, `encode` (returning a pair)
and `decode`. -/
def adaptiveMembers : List PyMember :=
  [PyMember.mk "compressible_tensors_keys" MemberKind.abstractProperty [] 1,
   PyMember.mk "commutes_with_sum" MemberKind.abstractProperty [] 1,
   PyMember.mk "decode_needs_input_shape" MemberKind.abstractProperty [] 1,
   PyMember.mk "state_update_aggregation_modes" MemberKind.abstractProperty [] 1,
   PyMember.mk "initial_state" MemberKind.abstractMethod
     [PyParam.mk "name" (some "None")] 1,
   PyMember.mk "update_state" MemberKind.abstractMethod
     [PyParam.mk "state" none, PyParam.mk "state_update_tensors" none,
      PyParam.mk "name" (some "None")] 1,
   PyMember.mk "get_params" MemberKind.abstractMethod
     [PyParam.mk "name" (some "None")] 2,
   PyMember.mk "encode" MemberKind.abstractMethod
     [PyParam.mk "x" none, PyParam.mk "encode_params" none,
      PyParam.mk "name" (some "None")] 2,
   PyMember.mk "decode" MemberKind.abstractMethod
     [PyParam.mk "encoded_tensors" none, PyParam.mk "decode_params" none,
      PyParam.mk "shape" (some "None"), PyParam.mk "name" (some "None")] 1]

/-- The base-class expressions of `EncodingStageInterface` in the source:
only the `six.with_metaclass(abc.ABCMeta)` helper, no interface base. -/
def statelessBases : List String :=
  ["six.with_metaclass(abc.ABCMeta)"]

/-- The base-class expressions of `AdaptiveEncodingStageInterface` in the
source: only the `six.with_metaclass(abc.ABCMeta)` helper; in particular it
does not inherit from `EncodingStageInterface`. -/
def adaptiveBases : List String :=
  ["six.with_metaclass(abc.ABCMeta)"]

/-- Modelled from the spec: the source interfaces carry no lossless
declaration (it lives with the concrete stage implementations, which are
not part of the core module), so a stage that declares itself lossless is
modelled as a stage paired with a boolean `lossless` declaration. -/
structure LosslessDeclaredStage extends EncodingStageInterface where
  lossless : Bool

/-- Modelled from the spec: the round-trip obligation on a stage declaring
itself lossless — decoding the encoded representation of `x` with the
matching decode parameters and the original shape of `x` reproduces `x`
exactly. -/
structure LawfulLosslessStage (S : LosslessDeclaredStage) : Prop where
  round_trip : S.lossless = true → ∀ x,
    S.decode (S.encode x S.get_params.1) S.get_params.2 (some x.shape) =
      Except.ok x

/-- The identity stage: the spec's example stage, with a single encoded key
`values` carrying the input unchanged.  It commutes with sum and does not
need the input shape for decoding. -/
def idStage : EncodingStageInterface where
  compressible_tensors_keys := ["values"]
  commutes_with_sum := true
  decode_needs_input_shape := false
  get_params := ([], [])
  encode := fun x _ => [("values", x)]
  decode := fun et _ _ =>
    match TensorMap.find et "values" with
    | some t => Except.ok t
    | none => Except.error StageError.structureMismatch

/-- A bit-packing-style stage that flattens its input, so decoding requires
the original shape and fails with a missing-shape error without one. -/
def packedStage : EncodingStageInterface where
  compressible_tensors_keys := []
  commutes_with_sum := false
  decode_needs_input_shape := true
  get_params := ([], [])
  encode := fun x _ => [("packed", Tensor.mk [x.data.length] x.data)]
  decode := fun et _ sh =>
    match sh with
    | none => Except.error StageError.missingShape
    | some s =>
      match TensorMap.find et "packed" with
      | some t => Except.ok (Tensor.mk s t.data)
      | none => Except.error StageError.structureMismatch

/-- The spec's example adaptive stage: identity encoding under key
`values`, a scalar state `count`, and a scalar state-update `delta`
(aggregated by SUM) equal to one per participant. -/
def adStage : AdaptiveEncodingStageInterface where
  compressible_tensors_keys := ["values"]
  commutes_with_sum := true
  decode_needs_input_shape := false
  state_update_aggregation_modes := [("delta", StateAggregationMode.SUM)]
  initial_state := [("count", Tensor.mk [] [0])]
  update_state := fun st su =>
    match st, su with
    | [(k, c)], [(k₂, d)] =>
      if k = "count" ∧ k₂ = "delta" then
        Except.ok [("count", elementwise (· + ·) c d)]
      else Except.error StageError.structureMismatch
    | _, _ => Except.error StageError.structureMismatch
  get_params := ([], [])
  encode := fun x _ => ([("values", x)], [("delta", Tensor.mk [] [1])])
  decode := fun et _ _ =>
    match TensorMap.find et "values" with
    | some t => Except.ok t
    | none => Except.error StageError.structureMismatch

/-- The identity stage together with a lossless declaration. -/
def idLossless : LosslessDeclaredStage :=
  LosslessDeclaredStage.mk idStage true

/-- Decoding the singleton `values` mapping recovers the stored tensor. -/
theorem idStage_decode_values (t : Tensor) (dp : TensorMap) (sh : Option (List Nat)) :
    idStage.decode [("values", t)] dp sh = Except.ok t := rfl

/-- For the identity stage, decode inverts encode regardless of params. -/
theorem idStage_decode_encode (x : Tensor) (p dp : TensorMap) (sh : Option (List Nat)) :
    idStage.decode (idStage.encode x p) dp sh = Except.ok x := rfl

/-- Summing singleton mappings under a shared key folds the tensors
element-wise under the same key. -/
theorem sumMaps_singleton_key (k : String) (rest : List Tensor) :
    ∀ a : Tensor,
    (rest.map (fun x => ([(k, x)] : TensorMap))).foldl TensorMap.add2 [(k, a)] =
      [(k, rest.foldl (elementwise (· + ·)) a)] := by
  induction rest with
  | nil => intro a; rfl
  | cons t r ih =>
    intro a
    have h₂ : TensorMap.add2 [(k, a)] [(k, t)] = [(k, elementwise (· + ·) a t)] := rfl
    simp only [List.map_cons, List.foldl_cons, h₂]
    exact ih (elementwise (· + ·) a t)

/-- The identity stage satisfies the stateless contract. -/
theorem idStage_lawful : LawfulEncodingStage idStage := by
  refine ⟨?_, ?_, ?_, ?_, ?_⟩
  · intro x₁ x₂ p₁ p₂; rfl
  · intro x p k hk; simpa [idStage, TensorMap.keys] using hk
  · intro _ p dp sh s xs ys hne hsh hf
    have hys : ys = xs := by
      clear hne hsh
      induction hf with
      | nil => rfl
      | cons h₂ _ ih =>
        rw [idStage_decode_encode] at h₂
        cases h₂
        rw [ih]
    subst hys
    rcases ys with _ | ⟨x₀, rest⟩
    · exact absurd rfl hne
    · have h₄ : sumMaps ((x₀ :: rest).map fun x => idStage.encode x p)
          = [("values", sumTensorList (x₀ :: rest))] := by
        simp only [List.map_cons]
        exact sumMaps_singleton_key "values" rest x₀
      rw [h₄]
      exact idStage_decode_values _ dp sh
  · intro h; exact absurd h (by decide)
  · intro _ x; exact ⟨x, idStage_decode_encode x _ _ none⟩

/-- The packed stage satisfies the stateless contract; in particular its
decode fails with a missing-shape error whenever the shape is omitted. -/
theorem packedStage_lawful : LawfulEncodingStage packedStage := by
  refine ⟨?_, ?_, ?_, ?_, ?_⟩
  · intro x₁ x₂ p₁ p₂; rfl
  · intro x p k hk; exact absurd hk (List.not_mem_nil k)
  · intro h; exact absurd h (by decide)
  · intro _ et dp; rfl
  · intro h; exact absurd h (by decide)

/-- Decoding the singleton `values` mapping of the adaptive stage recovers
the stored tensor. -/
theorem adStage_decode_values (t : Tensor) (dp : TensorMap) (sh : Option (List Nat)) :
    adStage.decode [("values", t)] dp sh = Except.ok t := rfl

/-- For the adaptive identity stage, decode inverts the `encoded_tensors`
component of encode regardless of params. -/
theorem adStage_decode_encode (x : Tensor) (p dp : TensorMap) (sh : Option (List Nat)) :
    adStage.decode (adStage.encode x p).1 dp sh = Except.ok x := rfl

/-- The adaptive identity stage satisfies the adaptive contract. -/
theorem adStage_lawful : LawfulAdaptiveStage adStage := by
  refine ⟨?_, ?_, ?_, ?_, ?_, ?_, ?_⟩
  · intro x₁ x₂ p₁ p₂; rfl
  · intro x p k hk; simpa [adStage, TensorMap.keys] using hk
  · intro x p; rfl
  · intro st su st₂ h
    rcases st with _ | ⟨⟨k, c⟩, str⟩
    · exact absurd h (by simp [adStage])
    · rcases str with _ | _
      · rcases su with _ | ⟨⟨k₂, d⟩, sur⟩
        · exact absurd h (by simp [adStage])
        · rcases sur with _ | _
          · by_cases hk : k = "count" ∧ k₂ = "delta"
            · have h₂ : adStage.update_state [(k, c)] [(k₂, d)] =
                  Except.ok [("count", elementwise (· + ·) c d)] := by
                show (if k = "count" ∧ k₂ = "delta" then _ else _) = _
                rw [if_pos hk]
              rw [h₂] at h
              cases h
              constructor
              · show [k] = ["count"]
                rw [hk.1]
              · rfl
            · have h₂ : adStage.update_state [(k, c)] [(k₂, d)] =
                  Except.error StageError.structureMismatch := by
                show (if k = "count" ∧ k₂ = "delta" then _ else _) = _
                rw [if_neg hk]
              rw [h₂] at h
              exact absurd h (by simp)
          · exact absurd h (by simp [adStage])
      · exact absurd h (by simp [adStage])
  · intro _ p dp sh s xs ys hne hsh hf
    have hys : ys = xs := by
      clear hne hsh
      induction hf with
      | nil => rfl
      | cons h₂ _ ih =>
        rw [adStage_decode_encode] at h₂
        cases h₂
        rw [ih]
    subst hys
    rcases ys with _ | ⟨x₀, rest⟩
    · exact absurd rfl hne
    · have h₄ : sumMaps ((x₀ :: rest).map fun x => (adStage.encode x p).1)
          = [("values", sumTensorList (x₀ :: rest))] := by
        simp only [List.map_cons]
        exact sumMaps_singleton_key "values" rest x₀
      rw [h₄]
      exact adStage_decode_values _ dp sh
  · intro h; exact absurd h (by decide)
  · intro _ x; exact ⟨x, adStage_decode_encode x _ _ none⟩

/-- The lossless-declared identity stage satisfies the round-trip
obligation. -/
theorem idLossless_lawful : LawfulLosslessStage idLossless :=
  ⟨fun _ x => idStage_decode_encode x _ _ (some x.shape)⟩

/-- Element-wise folding preserves the shape of the initial tensor. -/
theorem foldl_elementwise_shape (f : Int → Int → Int) (rest : List Tensor) :
    ∀ a : Tensor, (rest.foldl (elementwise f) a).shape = a.shape := by
  induction rest with
  | nil => intro a; rfl
  | cons t r ih =>
    intro a
    simpa [elementwise] using ih (elementwise f a t)

/-- Element-wise folding over tensors of one flat length preserves it. -/
theorem foldl_elementwise_length (f : Int → Int → Int) (L : Nat) (rest : List Tensor) :
    ∀ a : Tensor, a.data.length = L → (∀ t ∈ rest, t.data.length = L) →
    (rest.foldl (elementwise f) a).data.length = L := by
  induction rest with
  | nil => intro a ha _; exact ha
  | cons t r ih =>
    intro a ha hr
    refine ih (elementwise f a t) ?_ (fun u hu => hr u (List.mem_cons_of_mem _ hu))
    have ht := hr t (List.mem_cons_self _ _)
    simp [elementwise, List.length_zipWith, ha, ht]

/-- Reading one entry of a zipWith of equal-length lists. -/
theorem zipWith_getD (f : Int → Int → Int) (as bs : List Int) (i : Nat)
    (h₁ : i < as.length) (h₂ : i < bs.length) :
    (List.zipWith f as bs).getD i 0 = f (as.getD i 0) (bs.getD i 0) := by
  have hlen : i < (List.zipWith f as bs).length := by
    rw [List.length_zipWith]; exact lt_min h₁ h₂
  rw [List.getD_eq_getElem _ _ hlen, List.getD_eq_getElem _ _ h₁,
    List.getD_eq_getElem _ _ h₂]
  exact List.getElem_zipWith

/-- One entry of an element-wise fold is the pointwise fold of entries. -/
theorem foldl_elementwise_getD (f : Int → Int → Int) (L : Nat) (rest : List Tensor) :
    ∀ a : Tensor, a.data.length = L → (∀ t ∈ rest, t.data.length = L) →
    ∀ i, i < L →
    (rest.foldl (elementwise f) a).data.getD i 0 =
      rest.foldl (fun acc t => f acc (t.data.getD i 0)) (a.data.getD i 0) := by
  induction rest with
  | nil => intro a _ _ i _; rfl
  | cons t r ih =>
    intro a ha hr i hi
    have ht := hr t (List.mem_cons_self _ _)
    have hlen : (elementwise f a t).data.length = L := by
      simp [elementwise, List.length_zipWith, ha, ht]
    rw [List.foldl_cons, List.foldl_cons,
      ih (elementwise f a t) hlen (fun u hu => hr u (List.mem_cons_of_mem _ hu)) i hi]
    have hz : (elementwise f a t).data.getD i 0 = f (a.data.getD i 0) (t.data.getD i 0) := by
      apply zipWith_getD
      · rw [ha]; exact hi
      · rw [ht]; exact hi
    rw [hz]

/-- A left fold by `min` lands on one of the folded values. -/
theorem foldl_min_mem (vs : List Int) : ∀ v : Int, vs.foldl min v ∈ v :: vs := by
  induction vs with
  | nil => intro v; exact List.mem_singleton.mpr rfl
  | cons w ws ih =>
    intro v
    rw [List.foldl_cons]
    rcases List.mem_cons.mp (ih (min v w)) with h₂ | h₂
    · rw [h₂]
      rcases min_choice v w with h₃ | h₃
      · rw [h₃]; exact List.mem_cons_self _ _
      · rw [h₃]; exact List.mem_cons_of_mem _ (List.mem_cons_self _ _)
    · exact List.mem_cons_of_mem _ (List.mem_cons_of_mem _ h₂)

/-- A left fold by `min` is a lower bound of the folded values. -/
theorem foldl_min_le (vs : List Int) :
    ∀ v w : Int, w ∈ v :: vs → vs.foldl min v ≤ w := by
  induction vs with
  | nil =>
    intro v w hw
    rw [List.mem_singleton] at hw
    rw [hw]
    exact le_refl v
  | cons u us ih =>
    intro v w hw
    have hinit : ∀ a : Int, us.foldl min a ≤ a :=
      fun a => ih a a (List.mem_cons_self _ _)
    rw [List.foldl_cons]
    rcases List.mem_cons.mp hw with h₂ | h₂
    · rw [h₂]
      exact le_trans (hinit (min v u)) (min_le_left _ _)
    · rcases List.mem_cons.mp h₂ with h₃ | h₃
      · rw [h₃]
        exact le_trans (hinit (min v u)) (min_le_right _ _)
      · exact ih (min v u) w (List.mem_cons_of_mem _ h₃)

/-- A left fold by `max` lands on one of the folded values. -/
theorem foldl_max_mem (vs : List Int) : ∀ v : Int, vs.foldl max v ∈ v :: vs := by
  induction vs with
  | nil => intro v; exact List.mem_singleton.mpr rfl
  | cons w ws ih =>
    intro v
    rw [List.foldl_cons]
    rcases List.mem_cons.mp (ih (max v w)) with h₂ | h₂
    · rw [h₂]
      rcases max_choice v w with h₃ | h₃
      · rw [h₃]; exact List.mem_cons_self _ _
      · rw [h₃]; exact List.mem_cons_of_mem _ (List.mem_cons_self _ _)
    · exact List.mem_cons_of_mem _ (List.mem_cons_of_mem _ h₂)

/-- A left fold by `max` is an upper bound of the folded values. -/
theorem le_foldl_max (vs : List Int) :
    ∀ v w : Int, w ∈ v :: vs → w ≤ vs.foldl max v := by
  induction vs with
  | nil =>
    intro v w hw
    rw [List.mem_singleton] at hw
    rw [hw]
    exact le_refl v
  | cons u us ih =>
    intro v w hw
    have hinit : ∀ a : Int, a ≤ us.foldl max a :=
      fun a => ih a a (List.mem_cons_self _ _)
    rw [List.foldl_cons]
    rcases List.mem_cons.mp hw with h₂ | h₂
    · rw [h₂]
      exact le_trans (le_max_left _ _) (hinit (max v u))
    · rcases List.mem_cons.mp h₂ with h₃ | h₃
      · rw [h₃]
        exact le_trans (le_max_right _ _) (hinit (max v u))
      · exact ih (max v u) w (List.mem_cons_of_mem _ h₃)

/-- A left fold by addition adds the list sum to the initial value. -/
theorem foldl_add_eq_sum (vs : List Int) : ∀ v : Int, vs.foldl (· + ·) v = v + vs.sum := by
  induction vs with
  | nil => intro v; simp
  | cons w ws ih =>
    intro v
    rw [List.foldl_cons, ih, List.sum_cons]
    ring

/-- Flattening equal-length blocks yields length times block size. -/
theorem flatten_length_const (L : Nat) : ∀ ts : List Tensor,
    (∀ t ∈ ts, t.data.length = L) →
    ((ts.map Tensor.data).flatten).length = ts.length * L := by
  intro ts
  induction ts with
  | nil => intro _; simp
  | cons t r ih =>
    intro h
    simp only [List.map_cons, List.flatten_cons, List.length_append, List.length_cons]
    rw [ih (fun u hu => h u (List.mem_cons_of_mem _ hu)), h t (List.mem_cons_self _ _)]
    ring

/-- C1: for every stage (stateless or adaptive) satisfying its contract
with `commutes_with_sum = true`, and any finite nonempty family of
same-shape inputs encoded with identical encode params, decoding the
per-key element-wise sum of the encoded representations with the shared
decode params equals the sum of the individually decoded values; for
adaptive stages the property constrains only the `encoded_tensors`
component of `encode`'s output. -/
theorem C1_sum_commutation
    (S : EncodingStageInterface) (A : AdaptiveEncodingStageInterface)
    (hS : LawfulEncodingStage S) (hA : LawfulAdaptiveStage A) :
    (S.commutes_with_sum = true →
      ∀ (p dp : TensorMap) (sh : Option (List Nat)) (s : List Nat)
        (xs ys : List Tensor), xs ≠ [] → (∀ x ∈ xs, x.shape = s) →
        List.Forall₂ (fun x y => S.decode (S.encode x p) dp sh = Except.ok y) xs ys →
        S.decode (sumMaps (xs.map (fun x => S.encode x p))) dp sh =
          Except.ok (sumTensorList ys)) ∧
    (A.commutes_with_sum = true →
      ∀ (p dp : TensorMap) (sh : Option (List Nat)) (s : List Nat)
        (xs ys : List Tensor), xs ≠ [] → (∀ x ∈ xs, x.shape = s) →
        List.Forall₂ (fun x y => A.decode (A.encode x p).1 dp sh = Except.ok y) xs ys →
        A.decode (sumMaps (xs.map (fun x => (A.encode x p).1))) dp sh =
          Except.ok (sumTensorList ys)) :=
  ⟨hS.commutes, hA.commutes⟩

/-- Witness for C1 at the identity stages with inputs `[1,2]` and `[3,4]`
of shape `[2]`. -/
theorem C1_sum_commutation_witness :
    idStage.commutes_with_sum = true ∧ adStage.commutes_with_sum = true ∧
    idStage.decode (sumMaps ([Tensor.mk [2] [1, 2], Tensor.mk [2] [3, 4]].map
        (fun x => idStage.encode x []))) [] none =
      Except.ok (sumTensorList [Tensor.mk [2] [1, 2], Tensor.mk [2] [3, 4]]) ∧
    adStage.decode (sumMaps ([Tensor.mk [2] [1, 2], Tensor.mk [2] [3, 4]].map
        (fun x => (adStage.encode x []).1))) [] none =
      Except.ok (sumTensorList [Tensor.mk [2] [1, 2], Tensor.mk [2] [3, 4]]) := by
  refine ⟨rfl, rfl, ?_, ?_⟩
  · exact (C1_sum_commutation idStage adStage idStage_lawful adStage_lawful).1 rfl
      [] [] none [2] [Tensor.mk [2] [1, 2], Tensor.mk [2] [3, 4]]
      [Tensor.mk [2] [1, 2], Tensor.mk [2] [3, 4]] (by decide) (by decide)
      (List.Forall₂.cons rfl (List.Forall₂.cons rfl List.Forall₂.nil))
  · exact (C1_sum_commutation idStage adStage idStage_lawful adStage_lawful).2 rfl
      [] [] none [2] [Tensor.mk [2] [1, 2], Tensor.mk [2] [3, 4]]
      [Tensor.mk [2] [1, 2], Tensor.mk [2] [3, 4]] (by decide) (by decide)
      (List.Forall₂.cons rfl (List.Forall₂.cons rfl List.Forall₂.nil))

/-- C2: for every adaptive stage satisfying its contract, the key set of
the `state_update_tensors` returned by `encode` is exactly the key set of
`state_update_aggregation_modes`. -/
theorem C2_state_update_keys_exact
    (A : AdaptiveEncodingStageInterface) (hA : LawfulAdaptiveStage A) :
    ∀ x p, (A.encode x p).2.keys = A.state_update_aggregation_modes.map Prod.fst :=
  hA.state_update_keys

/-- Witness for C2 at the adaptive identity stage. -/
theorem C2_state_update_keys_exact_witness :
    LawfulAdaptiveStage adStage ∧
    (adStage.encode (Tensor.mk [2] [1, 2]) []).2.keys =
      adStage.state_update_aggregation_modes.map Prod.fst :=
  ⟨adStage_lawful,
   C2_state_update_keys_exact adStage adStage_lawful (Tensor.mk [2] [1, 2]) []⟩

/-- C3: for every stage satisfying its contract, the declared
`compressible_tensors_keys` are a subset of the key set of every `encode`
output, and that key set is the same for every invocation. -/
theorem C3_compressible_subset_and_keys_fixed
    (S : EncodingStageInterface) (hS : LawfulEncodingStage S) :
    (∀ x p, S.compressible_tensors_keys ⊆ (S.encode x p).keys) ∧
    (∀ x₁ x₂ p₁ p₂, (S.encode x₁ p₁).keys = (S.encode x₂ p₂).keys) :=
  ⟨hS.compressible_subset, hS.keys_fixed⟩

/-- Witness for C3 at the identity stage with two distinct invocations. -/
theorem C3_compressible_subset_and_keys_fixed_witness :
    LawfulEncodingStage idStage ∧
    idStage.compressible_tensors_keys ⊆
      (idStage.encode (Tensor.mk [2] [1, 2]) []).keys ∧
    (idStage.encode (Tensor.mk [2] [1, 2]) []).keys =
      (idStage.encode (Tensor.mk [] [7]) [("q", Tensor.mk [] [0])]).keys :=
  ⟨idStage_lawful,
   (C3_compressible_subset_and_keys_fixed idStage idStage_lawful).1
     (Tensor.mk [2] [1, 2]) [],
   (C3_compressible_subset_and_keys_fixed idStage idStage_lawful).2
     (Tensor.mk [2] [1, 2]) (Tensor.mk [] [7]) [] [("q", Tensor.mk [] [0])]⟩

/-- C4: every stage that declares itself lossless and satisfies the
round-trip obligation reproduces `x` exactly when decoding the encoded
representation of `x` with the matching decode params and `x`'s shape. -/
theorem C4_lossless_round_trip (S : LosslessDeclaredStage)
    (hS : LawfulLosslessStage S) (h : S.lossless = true) :
    ∀ x, S.decode (S.encode x S.get_params.1) S.get_params.2 (some x.shape) =
      Except.ok x :=
  hS.round_trip h

/-- Witness for C4 at the lossless-declared identity stage. -/
theorem C4_lossless_round_trip_witness :
    LawfulLosslessStage idLossless ∧ idLossless.lossless = true ∧
    idLossless.decode
        (idLossless.encode (Tensor.mk [2] [5, 6]) idLossless.get_params.1)
        idLossless.get_params.2 (some (Tensor.mk [2] [5, 6]).shape) =
      Except.ok (Tensor.mk [2] [5, 6]) :=
  ⟨idLossless_lawful, rfl,
   C4_lossless_round_trip idLossless idLossless_lawful rfl (Tensor.mk [2] [5, 6])⟩

/-- C5: for every adaptive stage satisfying its contract, the state key
schema is fixed: whenever `update_state` succeeds, the state it accepted
and the state it returns both have exactly the key set of
`initial_state`. -/
theorem C5_state_schema_fixed
    (A : AdaptiveEncodingStageInterface) (hA : LawfulAdaptiveStage A) :
    ∀ st su st₂, A.update_state st su = Except.ok st₂ →
      st.keys = A.initial_state.keys ∧ st₂.keys = A.initial_state.keys :=
  hA.state_schema

/-- Witness for C5 at the adaptive identity stage, running the spec's
example update `update_state({count: 0}, {delta: 2}) = {count: 2}`. -/
theorem C5_state_schema_fixed_witness :
    LawfulAdaptiveStage adStage ∧
    adStage.update_state [("count", Tensor.mk [] [0])] [("delta", Tensor.mk [] [2])] =
      Except.ok [("count", Tensor.mk [] [2])] ∧
    TensorMap.keys [("count", Tensor.mk [] [0])] = adStage.initial_state.keys ∧
    TensorMap.keys [("count", Tensor.mk [] [2])] = adStage.initial_state.keys :=
  ⟨adStage_lawful, rfl,
   C5_state_schema_fixed adStage adStage_lawful
     [("count", Tensor.mk [] [0])] [("delta", Tensor.mk [] [2])]
     [("count", Tensor.mk [] [2])] rfl⟩

/-- C6: for every stage satisfying its contract, when
`decode_needs_input_shape` is true a decode call omitting the shape fails
with a missing-shape error, and when it is false decoding a matching
encoded representation without a shape succeeds. -/
theorem C6_decode_shape_requirement
    (S : EncodingStageInterface) (hS : LawfulEncodingStage S) :
    (S.decode_needs_input_shape = true →
      ∀ et dp, S.decode et dp none = Except.error StageError.missingShape) ∧
    (S.decode_needs_input_shape = false →
      ∀ x, ∃ t, S.decode (S.encode x S.get_params.1) S.get_params.2 none =
        Except.ok t) :=
  ⟨hS.shape_needed, hS.shape_not_needed⟩

/-- Witness for C6: the packed stage (which needs the shape) fails with a
missing-shape error without one, and the identity stage (which does not)
succeeds without one. -/
theorem C6_decode_shape_requirement_witness :
    packedStage.decode_needs_input_shape = true ∧
    packedStage.decode [("packed", Tensor.mk [2] [1, 2])] [] none =
      Except.error StageError.missingShape ∧
    idStage.decode_needs_input_shape = false ∧
    (∃ t, idStage.decode (idStage.encode (Tensor.mk [2] [1, 2]) idStage.get_params.1)
        idStage.get_params.2 none = Except.ok t) :=
  ⟨rfl,
   (C6_decode_shape_requirement packedStage packedStage_lawful).1 rfl
     [("packed", Tensor.mk [2] [1, 2])] [],
   rfl,
   (C6_decode_shape_requirement idStage idStage_lawful).2 rfl (Tensor.mk [2] [1, 2])⟩

/-- C7: for a nonempty family of same-shape well-formed per-key
contributions, the aggregator combines them per the declared
`StateAggregationMode`: SUM gives the element-wise sum, MIN the
element-wise minimum, MAX the element-wise maximum, and CONCAT an array
along a new leading axis whose leading dimension is the number of
participants. -/
theorem C7_aggregation_mode_semantics (s : List Nat) (ts : List Tensor)
    (hne : ts ≠ []) (hsh : ∀ t ∈ ts, t.shape = s)
    (hlen : ∀ t ∈ ts, t.data.length = s.prod) :
    (∃ u, aggregate StateAggregationMode.SUM ts = some u ∧ u.shape = s ∧
       u.data.length = s.prod ∧ ∀ i, i < s.prod →
         u.data.getD i 0 = (ts.map (fun t => t.data.getD i 0)).sum) ∧
    (∃ u, aggregate StateAggregationMode.MIN ts = some u ∧ u.shape = s ∧
       ∀ i, i < s.prod →
         u.data.getD i 0 ∈ ts.map (fun t => t.data.getD i 0) ∧
         ∀ v ∈ ts.map (fun t => t.data.getD i 0), u.data.getD i 0 ≤ v) ∧
    (∃ u, aggregate StateAggregationMode.MAX ts = some u ∧ u.shape = s ∧
       ∀ i, i < s.prod →
         u.data.getD i 0 ∈ ts.map (fun t => t.data.getD i 0) ∧
         ∀ v ∈ ts.map (fun t => t.data.getD i 0), v ≤ u.data.getD i 0) ∧
    (∃ u, aggregate StateAggregationMode.CONCAT ts = some u ∧
       u.shape = ts.length :: s ∧ u.data.length = ts.length * s.prod) := by
  rcases ts with _ | ⟨t₀, rest⟩
  · exact absurd rfl hne
  have h₀ : t₀.shape = s := hsh t₀ (List.mem_cons_self _ _)
  have hl₀ : t₀.data.length = s.prod := hlen t₀ (List.mem_cons_self _ _)
  have hlr : ∀ t ∈ rest, t.data.length = s.prod :=
    fun t ht => hlen t (List.mem_cons_of_mem _ ht)
  refine ⟨⟨rest.foldl (elementwise (· + ·)) t₀, rfl, ?_, ?_, ?_⟩,
    ⟨rest.foldl (elementwise min) t₀, rfl, ?_, ?_⟩,
    ⟨rest.foldl (elementwise max) t₀, rfl, ?_, ?_⟩,
    ⟨Tensor.mk ((t₀ :: rest).length :: t₀.shape)
        (((t₀ :: rest).map Tensor.data).flatten), rfl, ?_, ?_⟩⟩
  · rw [foldl_elementwise_shape, h₀]
  · exact foldl_elementwise_length _ _ rest t₀ hl₀ hlr
  · intro i hi
    rw [foldl_elementwise_getD (· + ·) s.prod rest t₀ hl₀ hlr i hi]
    have hmap : rest.foldl (fun acc t => acc + t.data.getD i 0) (t₀.data.getD i 0) =
        (rest.map (fun t => t.data.getD i 0)).foldl (· + ·) (t₀.data.getD i 0) :=
      (List.foldl_map _ _ _ _).symm
    rw [hmap, foldl_add_eq_sum, List.map_cons, List.sum_cons]
  · rw [foldl_elementwise_shape, h₀]
  · intro i hi
    rw [foldl_elementwise_getD min s.prod rest t₀ hl₀ hlr i hi]
    have hmap : rest.foldl (fun acc t => min acc (t.data.getD i 0)) (t₀.data.getD i 0) =
        (rest.map (fun t => t.data.getD i 0)).foldl min (t₀.data.getD i 0) :=
      (List.foldl_map _ _ _ _).symm
    rw [hmap, List.map_cons]
    exact ⟨foldl_min_mem _ _, fun v hv => foldl_min_le _ _ v hv⟩
  · rw [foldl_elementwise_shape, h₀]
  · intro i hi
    rw [foldl_elementwise_getD max s.prod rest t₀ hl₀ hlr i hi]
    have hmap : rest.foldl (fun acc t => max acc (t.data.getD i 0)) (t₀.data.getD i 0) =
        (rest.map (fun t => t.data.getD i 0)).foldl max (t₀.data.getD i 0) :=
      (List.foldl_map _ _ _ _).symm
    rw [hmap, List.map_cons]
    exact ⟨foldl_max_mem _ _, fun v hv => le_foldl_max _ _ v hv⟩
  · rw [h₀]
  · exact flatten_length_const s.prod (t₀ :: rest) hlen

/-- Witness for C7 with two participants of shape `[2]`. -/
theorem C7_aggregation_mode_semantics_witness :
    ([Tensor.mk [2] [1, 5], Tensor.mk [2] [3, 2]] ≠ ([] : List Tensor)) ∧
    (∃ u, aggregate StateAggregationMode.SUM
        [Tensor.mk [2] [1, 5], Tensor.mk [2] [3, 2]] = some u ∧
      u.shape = [2] ∧ u.data.length = List.prod [2] ∧
      ∀ i, i < List.prod [2] →
        u.data.getD i 0 = ([Tensor.mk [2] [1, 5], Tensor.mk [2] [3, 2]].map
          (fun t => t.data.getD i 0)).sum) ∧
    (∃ u, aggregate StateAggregationMode.CONCAT
        [Tensor.mk [2] [1, 5], Tensor.mk [2] [3, 2]] = some u ∧
      u.shape = [Tensor.mk [2] [1, 5], Tensor.mk [2] [3, 2]].length :: [2] ∧
      u.data.length = [Tensor.mk [2] [1, 5], Tensor.mk [2] [3, 2]].length * List.prod [2]) := by
  have h := C7_aggregation_mode_semantics [2]
    [Tensor.mk [2] [1, 5], Tensor.mk [2] [3, 2]]
    (by decide) (by decide) (by decide)
  exact ⟨by decide, h.1, h.2.2.2⟩

/-- C8: `AdaptiveEncodingStageInterface` is not a subclass of
`EncodingStageInterface`, yet declares the same five shared members with
identical signatures, extends `encode` to return a pair instead of a
single mapping, and adds exactly `state_update_aggregation_modes`,
`initial_state` and `update_state`. -/
theorem C8_adaptive_extends_stateless :
    ("EncodingStageInterface" ∉ adaptiveBases) ∧
    (∀ m ∈ statelessMembers, m.mname ≠ "encode" → m ∈ adaptiveMembers) ∧
    (∀ m ∈ statelessMembers, ∀ m₂ ∈ adaptiveMembers,
      m.mname = "encode" → m₂.mname = "encode" →
      m₂.params = m.params ∧ m₂.kind = m.kind ∧
      m.retComponents = 1 ∧ m₂.retComponents = 2) ∧
    ((adaptiveMembers.map PyMember.mname).filter
        (fun n => !((statelessMembers.map PyMember.mname).contains n)) =
      ["state_update_aggregation_modes", "initial_state", "update_state"]) := by
  decide

/-- C9: `StateAggregationMode` is a closed enumeration with exactly the
four members SUM, MIN, MAX and CONCAT (with source values 1, 2, 3, 4); it
carries no behaviour of its own. -/
theorem C9_state_aggregation_mode_closed :
    (∀ m : StateAggregationMode, m = StateAggregationMode.SUM ∨
      m = StateAggregationMode.MIN ∨ m = StateAggregationMode.MAX ∨
      m = StateAggregationMode.CONCAT) ∧
    [StateAggregationMode.SUM.value, StateAggregationMode.MIN.value,
      StateAggregationMode.MAX.value, StateAggregationMode.CONCAT.value] =
      [1, 2, 3, 4] := by
  constructor
  · intro m
    cases m
    · exact Or.inl rfl
    · exact Or.inr (Or.inl rfl)
    · exact Or.inr (Or.inr (Or.inl rfl))
    · exact Or.inr (Or.inr (Or.inr rfl))
  · rfl

/-- C10: the core module is pure declaration: every member of both
interfaces is abstract (so the core itself performs no validation and
raises none of the error taxonomy), and `decode`'s `shape` parameter
defaults to `None` in both interfaces, so the core never rejects a decode
call omitting the shape. -/
theorem C10_core_is_pure_declaration :
    (∀ m ∈ statelessMembers, m.kind = MemberKind.abstractProperty ∨
      m.kind = MemberKind.abstractMethod) ∧
    (∀ m ∈ adaptiveMembers, m.kind = MemberKind.abstractProperty ∨
      m.kind = MemberKind.abstractMethod) ∧
    (∀ m ∈ statelessMembers, m.mname = "decode" →
      PyParam.mk "shape" (some "None") ∈ m.params) ∧
    (∀ m ∈ adaptiveMembers, m.mname = "decode" →
      PyParam.mk "shape" (some "None") ∈ m.params) := by
  decide
